import Mathlib

/-!
# Formal model of the Syft treasury-vault contracts

A shallow embedding, in Lean 4, of the algorithmic core of the Syft
repository:

* the constant-product AMM pool engine
  (`contracts/real-liquidity-pool/src/lib.rs`): swap pricing with the
  0.3% fee, liquidity-share minting via integer square root, slippage
  and reserve-drain protection;
* the vault share ledger (`contracts/soroban/src/vault.rs`): deposit
  share minting and withdrawal payout accounting;
* the rebalance planner and executors
  (`contracts/soroban/src/rebalance.rs`): target-allocation validation,
  plan computation, the budget-constrained executor, and the liquidity
  action.

Rust `i128` values are modelled as `Int` together with explicit
range checks; the `checked_*` operations of the source become
`Option Int` valued functions that return `none` exactly when the Rust
operation would.  Rust's `/` on `i128` truncates toward zero, which is
`Int.tdiv`.  External collaborators (token balances, the swap router,
pool discovery) are passed in as explicit functions, and contract
storage becomes explicit state records; an aborting invocation returns
`Except.error` and, per the all-or-nothing transaction model, leaves
every state record as it was.
-/

set_option maxRecDepth 100000

deriving instance DecidableEq for Except

namespace Syft

/-! ## 128-bit checked arithmetic -/

def i128Min : Int := -(2 ^ 127)

def i128Max : Int := 2 ^ 127 - 1

/-- `i128::checked_mul`. -/
def checkedMul (a b : Int) : Option Int :=
  if i128Min ≤ a * b ∧ a * b ≤ i128Max then some (a * b) else none

/-- `i128::checked_add`. -/
def checkedAdd (a b : Int) : Option Int :=
  if i128Min ≤ a + b ∧ a + b ≤ i128Max then some (a + b) else none

/-- `i128::checked_sub`. -/
def checkedSub (a b : Int) : Option Int :=
  if i128Min ≤ a - b ∧ a - b ≤ i128Max then some (a - b) else none

/-- `i128::checked_div`: `none` on division by zero and on the single
overflowing case `i128::MIN / -1` (caught by the range check). -/
def checkedDiv (a b : Int) : Option Int :=
  if b = 0 then none
  else if i128Min ≤ a.tdiv b ∧ a.tdiv b ≤ i128Max then some (a.tdiv b) else none

theorem checkedMul_some {a b v : Int} (h : checkedMul a b = some v) : v = a * b := by
  unfold checkedMul at h
  split at h
  · exact (Option.some.injEq _ _ ▸ h).symm
  · exact absurd h (by simp)

theorem checkedAdd_some {a b v : Int} (h : checkedAdd a b = some v) : v = a + b := by
  unfold checkedAdd at h
  split at h
  · exact (Option.some.injEq _ _ ▸ h).symm
  · exact absurd h (by simp)

theorem checkedSub_some {a b v : Int} (h : checkedSub a b = some v) : v = a - b := by
  unfold checkedSub at h
  split at h
  · exact (Option.some.injEq _ _ ▸ h).symm
  · exact absurd h (by simp)

theorem checkedDiv_some {a b v : Int} (h : checkedDiv a b = some v) :
    b ≠ 0 ∧ v = a.tdiv b := by
  unfold checkedDiv at h
  split at h
  · exact absurd h (by simp)
  · split at h
    · exact ⟨by assumption, (Option.some.injEq _ _ ▸ h).symm⟩
    · exact absurd h (by simp)

/-! ## AMM pool engine (`real-liquidity-pool/src/lib.rs`) -/

/-- Token and account identifiers. -/
abbrev Address := Nat

inductive PoolError where
  | AlreadyInitialized
  | NotInitialized
  | InsufficientLiquidity
  | InsufficientAmount
  | InsufficientOutputAmount
  | InvalidTokenPair
  | SlippageExceeded
  | Unauthorized
deriving DecidableEq, Repr

/-- The pool's singleton storage record (`PoolInfo` plus the three
instance-storage reserve/share slots). -/
structure Pool where
  token_a : Address
  token_b : Address
  reserve_a : Int
  reserve_b : Int
  total_shares : Int
deriving DecidableEq, Repr

/-- The overflow-checked computation chain of the swap output. -/
def computeAmountOutChain (amount_in reserve_in reserve_out : Int) : Option Int :=
  (checkedMul amount_in 997).bind fun fee =>
  (checkedMul fee reserve_out).bind fun num =>
  ((checkedMul reserve_in 1000).bind fun v => checkedAdd v fee).bind fun den =>
  checkedDiv num den

/-- The fee-adjusted constant-product output computation inside `swap`
(lines 296-309): `amount_out = (amount_in*997*reserve_out) /
(reserve_in*1000 + amount_in*997)`, all steps overflow-checked; any
overflow (or the zero denominator) aborts with `InsufficientAmount`. -/
def computeAmountOut (amount_in reserve_in reserve_out : Int) : Except PoolError Int :=
  match computeAmountOutChain amount_in reserve_in reserve_out with
  | some out => .ok out
  | none => .error .InsufficientAmount

/-- `RealLiquidityPool::swap`: direction by token match, constant-product
output with 0.3% fee, slippage check before the reserve-drain check,
then the two reserve updates. -/
def swap (p : Pool) (token_in : Address) (amount_in amount_out_min : Int) :
    Except PoolError (Int × Pool) :=
  if amount_in ≤ 0 then .error .InsufficientAmount
  else if token_in = p.token_a then
    match computeAmountOut amount_in p.reserve_a p.reserve_b with
    | .error e => .error e
    | .ok amount_out =>
      if amount_out < amount_out_min then .error .SlippageExceeded
      else if p.reserve_b ≤ amount_out then .error .InsufficientLiquidity
      else .ok (amount_out,
        { p with reserve_a := p.reserve_a + amount_in,
                 reserve_b := p.reserve_b - amount_out })
  else if token_in = p.token_b then
    match computeAmountOut amount_in p.reserve_b p.reserve_a with
    | .error e => .error e
    | .ok amount_out =>
      if amount_out < amount_out_min then .error .SlippageExceeded
      else if p.reserve_a ≤ amount_out then .error .InsufficientLiquidity
      else .ok (amount_out,
        { p with reserve_a := p.reserve_a - amount_out,
                 reserve_b := p.reserve_b + amount_in })
  else .error .InvalidTokenPair

/-- The pool state after a `swap` invocation: on failure the whole
invocation aborts, so storage keeps its previous contents. -/
def swapFinalState (p : Pool) (token_in : Address) (amount_in amount_out_min : Int) : Pool :=
  match swap p token_in amount_in amount_out_min with
  | .ok (_, p') => p'
  | .error _ => p

/-- `RealLiquidityPool::quote` (lines 412-419). -/
def quote (amount_a reserve_a reserve_b : Int) : Int :=
  if reserve_a = 0 ∨ reserve_b = 0 then amount_a
  else ((checkedMul amount_a reserve_b).bind (fun v => checkedDiv v reserve_a)).getD 0

/-- The Babylonian loop of `RealLiquidityPool::sqrt` (lines 426-431),
on `Nat` (the loop is reached only with a non-negative argument, and all
loop values stay non-negative).  `z` strictly decreases at every
iteration, so the loop runs at most `x` times; the first argument is a
fuel bounded below by that count. -/
def sqrtLoop : Nat → Nat → Nat → Nat → Nat
  | 0, _, z, _ => z
  | fuel + 1, x, z, y => if y < z then sqrtLoop fuel x y ((x / y + y) / 2) else z

/-- `RealLiquidityPool::sqrt`: `0` for `0`; for a negative argument the
loop guard `y < z` fails at once (toward-zero halving of `x + 1` cannot
go below `x`), so the function returns its argument unchanged. -/
def sqrtI (x : Int) : Int :=
  if x ≤ 0 then x
  else Int.ofNat (sqrtLoop x.toNat x.toNat x.toNat ((x.toNat + 1) / 2))

/-- The desired-amount selection of `add_liquidity` (lines 100-121). -/
def addLiquidityAmounts (p : Pool) (a_desired b_desired a_min b_min : Int) :
    Except PoolError (Int × Int) :=
  if p.reserve_a = 0 ∧ p.reserve_b = 0 then .ok (a_desired, b_desired)
  else
    let b_optimal := quote a_desired p.reserve_a p.reserve_b
    if b_optimal ≤ b_desired then
      if b_optimal < b_min then .error .InsufficientAmount
      else .ok (a_desired, b_optimal)
    else
      let a_optimal := quote b_desired p.reserve_b p.reserve_a
      if a_desired < a_optimal ∨ a_optimal < a_min then .error .InsufficientAmount
      else .ok (a_optimal, b_desired)

/-- The share computation of `add_liquidity` (lines 123-140): geometric
mean of the deposited amounts on an empty share supply, otherwise the
smaller of the two proportional ratios. -/
def addLiquidityShares (p : Pool) (amount_a amount_b : Int) : Except PoolError Int :=
  if p.total_shares = 0 then
    match checkedMul amount_a amount_b with
    | some product => .ok (sqrtI product)
    | none => .error .InsufficientAmount
  else
    match (checkedMul amount_a p.total_shares).bind (fun v => checkedDiv v p.reserve_a),
          (checkedMul amount_b p.total_shares).bind (fun v => checkedDiv v p.reserve_b) with
    | some la, some lb => .ok (if la < lb then la else lb)
    | _, _ => .error .InsufficientAmount

/-- Result record of `add_liquidity`: the returned triple together with
the updated pool storage. -/
structure AddLiquidityResult where
  liquidity : Int
  amount_a : Int
  amount_b : Int
  pool : Pool
deriving DecidableEq, Repr

/-- `RealLiquidityPool::add_liquidity` (lines 78-175), without the token
transfers (which move the just-accounted amounts). -/
def addLiquidity (p : Pool) (a_desired b_desired a_min b_min : Int) :
    Except PoolError AddLiquidityResult :=
  match addLiquidityAmounts p a_desired b_desired a_min b_min with
  | .error e => .error e
  | .ok (amount_a, amount_b) =>
    match addLiquidityShares p amount_a amount_b with
    | .error e => .error e
    | .ok liquidity =>
      if liquidity ≤ 0 then .error .InsufficientLiquidity
      else .ok ⟨liquidity, amount_a, amount_b,
        { p with reserve_a := p.reserve_a + amount_a,
                 reserve_b := p.reserve_b + amount_b,
                 total_shares := p.total_shares + liquidity }⟩

example : sqrtI 500000 = 707 := by decide
example : computeAmountOut 100 1000 500 = .ok 45 := by decide
example : swap ⟨0, 1, 1000, 500, 707⟩ 0 100 0 = .ok (45, ⟨0, 1, 1100, 455, 707⟩) := by decide

/-! ## Vault share ledger (`contracts/soroban/src/vault.rs`) -/

/-- Modelled from the spec: the vault's error enumeration lives in
`errors.rs`, which is not among the provided sources; the variants are
the error kinds of spec §7, all of which appear at use sites in the
provided `vault.rs` and `rebalance.rs`. -/
inductive VaultError where
  | NotInitialized
  | AlreadyInitialized
  | InvalidConfiguration
  | InvalidAmount
  | InsufficientBalance
  | InsufficientShares
  | InsufficientLiquidity
  | InsufficientOutputAmount
  | InvalidTokenPair
  | SlippageExceeded
  | SlippageTooHigh
  | RouterNotSet
  | Unauthorized
deriving DecidableEq, Repr

/-- `VaultState` of `types.rs`. -/
structure VaultState where
  total_shares : Int
  total_value : Int
  last_rebalance : Nat
deriving DecidableEq, Repr

/-- `UserPosition` of `types.rs`. -/
structure UserPosition where
  shares : Int
  last_deposit : Nat
deriving DecidableEq, Repr

/-- The share-minting computation of `deposit_with_token`
(`vault.rs` lines 143-151): 1:1 on the first deposit, otherwise
`final_amount * total_shares / total_value`, overflow-checked. -/
def depositShares (st : VaultState) (final_amount : Int) : Except VaultError Int :=
  if st.total_shares = 0 then .ok final_amount
  else
    match (checkedMul final_amount st.total_shares).bind
          (fun v => checkedDiv v st.total_value) with
    | some s => .ok s
    | none => .error .InvalidAmount

/-- Result of the deposit accounting: the minted shares and the updated
singleton state and per-depositor position records. -/
structure DepositResult where
  shares : Int
  state : VaultState
  position : UserPosition
deriving DecidableEq, Repr

/-- The accounting tail of `deposit_with_token` (`vault.rs` lines
139-179), beginning once `final_amount` (the deposited amount after any
auto-swap into the base asset) is known. -/
def depositUpdate (st : VaultState) (pos : UserPosition) (final_amount : Int) (now : Nat) :
    Except VaultError DepositResult :=
  match depositShares st final_amount with
  | .error e => .error e
  | .ok shares =>
    match checkedAdd st.total_shares shares, checkedAdd st.total_value final_amount,
          checkedAdd pos.shares shares with
    | some ts, some tv, some ps =>
      .ok ⟨shares, { st with total_shares := ts, total_value := tv }, ⟨ps, now⟩⟩
    | _, _, _ => .error .InvalidAmount

/-- Result of the withdrawal accounting: the exit-asset amount paid out,
the updated state, and the depositor's position (`none` once its share
count reaches zero and the record is removed). -/
structure WithdrawResult where
  payout : Int
  state : VaultState
  position : Option UserPosition
deriving DecidableEq, Repr

/-- The payout selection of `withdraw` (`vault.rs` lines 266-275): if
the realized balance is below the theoretical entitlement, scale the
payout down to `final_balance * shares / total_shares`, else pay the
entitlement. -/
def withdrawActual (st : VaultState) (shares amount final_balance : Int) :
    Except VaultError Int :=
  if final_balance < amount then
    match (checkedMul final_balance shares).bind
          (fun v => checkedDiv v st.total_shares) with
    | some a => .ok a
    | none => .error .InvalidAmount
  else .ok amount

/-- `VaultContract::withdraw` (`vault.rs` lines 185-311) as a function of
the realized exit-asset balance `final_balance` held by the vault after
liquidating positions and swapping every non-exit asset (the external
unstake/swap calls behind that balance are collaborator calls).  The
theoretical entitlement is `shares * total_value / total_shares`; when
the realized balance falls short, the payout is scaled to
`final_balance * shares / total_shares`. -/
def withdrawUpdate (st : VaultState) (pos : UserPosition) (shares final_balance : Int) :
    Except VaultError WithdrawResult :=
  if shares ≤ 0 then .error .InvalidAmount
  else if pos.shares < shares then .error .InsufficientShares
  else if st.total_shares = 0 then .error .InvalidAmount
  else
    match (checkedMul shares st.total_value).bind (fun v => checkedDiv v st.total_shares) with
    | none => .error .InvalidAmount
    | some amount =>
      match withdrawActual st shares amount final_balance with
      | .error e => .error e
      | .ok actual_amount =>
        if final_balance < actual_amount then .error .InsufficientBalance
        else
          match checkedSub st.total_shares shares, checkedSub st.total_value actual_amount,
                checkedSub pos.shares shares with
          | some ts, some tv, some ps =>
            .ok ⟨actual_amount, { st with total_shares := ts, total_value := tv },
                 if ps = 0 then none else some { pos with shares := ps }⟩
          | _, _, _ => .error .InvalidAmount

/-! ## Rebalance planner and executors (`contracts/soroban/src/rebalance.rs`) -/

/-- The overflow-checked summation of a target-allocation vector
(`rebalance.rs` lines 280-286, 818-824 and 1069-1075). -/
def sumChecked (xs : List Int) : Option Int :=
  xs.foldl (fun acc x => acc.bind (fun a => checkedAdd a x)) (some 0)

/-- The target-allocation validation shared verbatim by
`execute_rebalance_action` (lines 271-301), `force_rebalance_to_allocation`
(lines 813-829) and `calculate_rebalance_plan` (lines 1063-1079): the
vector's length must match the asset list, and its overflow-checked sum
must be exactly 100_0000 or 0; otherwise `InvalidConfiguration`. -/
def validateAllocation (alloc : List Int) (numAssets : Nat) : Except VaultError Unit :=
  if alloc.length ≠ numAssets then .error .InvalidConfiguration
  else
    match sumChecked alloc with
    | none => .error .InvalidConfiguration
    | some s =>
      if s ≠ 1000000 ∧ s ≠ 0 then .error .InvalidConfiguration else .ok ()

/-- Per-asset target amounts: `total_value * target_pct / 100_0000`,
overflow-checked (`rebalance.rs` lines 327-330 et al.). -/
def computeTargets (alloc : List Int) (total_value : Int) : Option (List Int) :=
  alloc.mapM (fun pct => (checkedMul total_value pct).bind (fun v => checkedDiv v 1000000))

/-- `RebalanceStep` of `types.rs`. -/
structure RebalanceStep where
  from_token : Address
  to_token : Address
  amount_in : Int
  min_amount_out : Int
  pool_address : Address
deriving DecidableEq, Repr

/-- `RebalancePlan` of `types.rs`. -/
structure RebalancePlan where
  steps : List RebalanceStep
  total_steps : Nat
deriving DecidableEq, Repr

/-- The collaborators read by `calculate_rebalance_plan`: the vault's
token balances (`token_client::get_vault_balance`) and the registered
custom-pool mapping (`real_pool_client::get_custom_token_pool`). -/
structure PlanEnv where
  balanceOf : Address → Int
  customPool : Address → Option Address

/-- The inner source-scan of `calculate_rebalance_plan` (`rebalance.rs`
lines 1134-1206): the first index `j ≠ i` whose balance exceeds its
target by more than the 1000-unit threshold and for which a custom pool
is registered on either leg yields a step of the excess capped by the
deficit, with a 95%-of-input minimum output; smaller candidates are
skipped and the scan continues. -/
def planFindSource (env : PlanEnv) (assets : List Address) (targets balances : List Int)
    (i : Nat) (asset : Address) (diff : Int) :
    List Nat → Option (Nat × Int × RebalanceStep)
  | [] => none
  | j :: rest =>
    if i = j then planFindSource env assets targets balances i asset diff rest
    else
      match assets.get? j, balances.get? j, targets.get? j with
      | some source_asset, some source_current, some source_target =>
        if source_target + 1000 < source_current then
          let excess := source_current - source_target
          match (env.customPool source_asset).orElse (fun _ => env.customPool asset) with
          | none => planFindSource env assets targets balances i asset diff rest
          | some pool_address =>
            let amount_to_swap := if excess < diff then excess else diff
            if amount_to_swap < 1000 then
              planFindSource env assets targets balances i asset diff rest
            else
              some (j, source_current,
                ⟨source_asset, asset, amount_to_swap,
                 Int.tdiv (amount_to_swap * 95) 100, pool_address⟩)
        else planFindSource env assets targets balances i asset diff rest
      | _, _, _ => planFindSource env assets targets balances i asset diff rest

/-- The outer deficit loop of `calculate_rebalance_plan` (`rebalance.rs`
lines 1113-1209): differences below the 1000-unit dust threshold are
skipped; each recorded step updates the in-memory balance projection,
crediting the conservative `min_amount_out`. -/
def planOuter (env : PlanEnv) (assets : List Address) (targets : List Int) :
    List Nat → List Int → List RebalanceStep → List RebalanceStep
  | [], _, steps => steps
  | i :: rest, balances, steps =>
    match assets.get? i, balances.get? i, targets.get? i with
    | some asset, some current, some target =>
      let diff := target - current
      if diff.natAbs < 1000 then planOuter env assets targets rest balances steps
      else if 0 < diff then
        match planFindSource env assets targets balances i asset diff
              (List.range assets.length) with
        | none => planOuter env assets targets rest balances steps
        | some (j, source_current, step) =>
          let balances' := (balances.set j (source_current - step.amount_in)).set i
            (current + step.min_amount_out)
          planOuter env assets targets rest balances' (steps ++ [step])
      else planOuter env assets targets rest balances steps
    | _, _, _ => planOuter env assets targets rest balances steps

/-- `calculate_rebalance_plan` (`rebalance.rs` lines 1055-1224):
validates the allocation vector, computes balances and targets, and
records (without executing) the matched swap steps. -/
def calculateRebalancePlan (env : PlanEnv) (assets : List Address) (alloc : List Int)
    (total_value : Int) : Except VaultError RebalancePlan :=
  match validateAllocation alloc assets.length with
  | .error e => .error e
  | .ok _ =>
    let balances := assets.map env.balanceOf
    match computeTargets alloc total_value with
    | none => .error .InvalidAmount
    | some targets =>
      let steps := planOuter env assets targets (List.range assets.length) balances []
      .ok ⟨steps, steps.length⟩

/-- `token_client::approve_router` (`token_client.rs` lines 69-86):
fails with `InvalidAmount` on a non-positive amount; the token
`approve` host call itself carries no vault-level failure value. -/
def approveRouter (_token _router : Address) (amount : Int) : Except VaultError Unit :=
  if amount ≤ 0 then .error .InvalidAmount else .ok ()

/-- One router invocation as recorded for the execution trace. -/
structure RouterCall where
  source : Address
  dest : Address
  amountIn : Int
  minOut : Int
deriving DecidableEq, Repr

/-- The collaborators of the rebalance executors: vault token balances,
the registered custom-pool mapping, the configured router, the factory
(`swap_router::get_soroswap_factory_address_internal`), and the external
calls of `pool_client` and `swap_router`.  Modelled from the spec:
`pool_client.rs` and `swap_router.rs` are not among the provided
sources, so pool discovery (`get_pool_for_pair`), quoting
(`calculate_swap_input` / `calculate_swap_output`, the AMM pricing
formula of spec §4.1) and the router swap (`swap_via_router`) enter the
model as opaque fallible collaborator functions. -/
structure ExecEnv where
  balanceOf : Address → Int
  customPool : Address → Option Address
  routerAddress : Option Address
  factoryAddress : Address
  getPoolForPair : Address → Address → Address → Except VaultError Address
  calcSwapInput : Address → Address → Address → Int → Except VaultError Int
  calcSwapOutput : Address → Address → Address → Int → Except VaultError Int
  routerSwap : Address → Address → Int → Int → Except VaultError Int

/-- State threaded through an executor run: the in-memory balance
projection plus a trace of the router swaps performed. -/
structure ExecState where
  balances : List Int
  calls : List RouterCall
deriving DecidableEq, Repr

/-- The inner source-scan of `execute_rebalance_action` (`rebalance.rs`
lines 392-552): any surplus strictly above target qualifies; failure to
discover a pool, to quote the swap, to approve, or to execute the router
swap is returned (aborting the whole rebalance); the routed minimum
output is 95% of the quoted expected output. -/
def execInner (env : ExecEnv) (assets : List Address) (targets : List Int) (router : Address)
    (i : Nat) (asset : Address) (current diff : Int) :
    List Nat → ExecState → Except VaultError ExecState
  | [], st => .ok st
  | j :: rest, st =>
    if i = j then execInner env assets targets router i asset current diff rest st
    else
      match assets.get? j, st.balances.get? j, targets.get? j with
      | some source_asset, some source_current, some source_target =>
        if source_target < source_current then
          let excess := source_current - source_target
          match env.getPoolForPair env.factoryAddress source_asset asset with
          | .error e => .error e
          | .ok pool_address =>
            match env.calcSwapInput pool_address source_asset asset diff with
            | .error e => .error e
            | .ok amount_in0 =>
              let amount_to_swap := if excess < amount_in0 then excess else amount_in0
              if amount_to_swap < 100 then
                execInner env assets targets router i asset current diff rest st
              else
                match env.calcSwapOutput pool_address source_asset asset amount_to_swap with
                | .error e => .error e
                | .ok expected_output =>
                  let min_amount_out := Int.tdiv (expected_output * 95) 100
                  match approveRouter source_asset router amount_to_swap with
                  | .error e => .error e
                  | .ok _ =>
                    match env.routerSwap source_asset asset amount_to_swap min_amount_out with
                    | .error e => .error e
                    | .ok amount_out =>
                      .ok ⟨(st.balances.set j (source_current - amount_to_swap)).set i
                             (current + amount_out),
                           st.calls ++ [⟨source_asset, asset, amount_to_swap, min_amount_out⟩]⟩
        else execInner env assets targets router i asset current diff rest st
      | _, _, _ => execInner env assets targets router i asset current diff rest st

/-- The outer deficit loop of `execute_rebalance_action` (`rebalance.rs`
lines 366-555), dust threshold 100. -/
def execOuter (env : ExecEnv) (assets : List Address) (targets : List Int) (router : Address) :
    List Nat → ExecState → Except VaultError ExecState
  | [], st => .ok st
  | i :: rest, st =>
    match assets.get? i, st.balances.get? i, targets.get? i with
    | some asset, some current, some target =>
      let diff := target - current
      if diff.natAbs < 100 then execOuter env assets targets router rest st
      else if 0 < diff then
        match execInner env assets targets router i asset current diff
              (List.range assets.length) st with
        | .error e => .error e
        | .ok st' => execOuter env assets targets router rest st'
      else execOuter env assets targets router rest st
    | _, _, _ => execOuter env assets targets router rest st

/-- `execute_rebalance_action` (`rebalance.rs` lines 256-558): the
unconstrained executor — allocation validation, router lookup, balance
and target computation, then the fail-fast swap loop. -/
def executeRebalanceAction (env : ExecEnv) (assets : List Address) (alloc : List Int)
    (total_value : Int) : Except VaultError ExecState :=
  match validateAllocation alloc assets.length with
  | .error e => .error e
  | .ok _ =>
    match env.routerAddress with
    | none => .error .InvalidConfiguration
    | some router =>
      let balances := assets.map env.balanceOf
      match computeTargets alloc total_value with
      | none => .error .InvalidAmount
      | some targets =>
        execOuter env assets targets router (List.range assets.length) ⟨balances, []⟩

/-- State threaded through `force_rebalance_to_allocation`: the balance
projection, the successful-swap counter, and the router-call trace. -/
structure ForceState where
  balances : List Int
  swapCount : Nat
  calls : List RouterCall
deriving DecidableEq, Repr

/-- The inner source-scan of `force_rebalance_to_allocation`
(`rebalance.rs` lines 911-1040): surplus must exceed target by more than
1000; only pre-registered custom pools are consulted (no factory
discovery); the swap amount is the 1:1 estimate `min diff excess` with a
95%-of-input minimum; a failed router swap is skipped and the scan
continues with the next candidate. -/
def forceInner (env : ExecEnv) (assets : List Address) (targets : List Int) (router : Address)
    (i : Nat) (asset : Address) (current diff : Int) :
    List Nat → ForceState → Except VaultError ForceState
  | [], st => .ok st
  | j :: rest, st =>
    if i = j then forceInner env assets targets router i asset current diff rest st
    else
      match assets.get? j, st.balances.get? j, targets.get? j with
      | some source_asset, some source_current, some source_target =>
        if source_target + 1000 < source_current then
          let excess := source_current - source_target
          match (env.customPool source_asset).orElse (fun _ => env.customPool asset) with
          | none => forceInner env assets targets router i asset current diff rest st
          | some _pool_address =>
            let amount_to_swap := if excess < diff then excess else diff
            if amount_to_swap < 1000 then
              forceInner env assets targets router i asset current diff rest st
            else
              let min_amount_out := Int.tdiv (amount_to_swap * 95) 100
              match approveRouter source_asset router amount_to_swap with
              | .error e => .error e
              | .ok _ =>
                match env.routerSwap source_asset asset amount_to_swap min_amount_out with
                | .error _ =>
                  forceInner env assets targets router i asset current diff rest st
                | .ok amount_out =>
                  .ok ⟨(st.balances.set j (source_current - amount_to_swap)).set i
                         (current + amount_out),
                       st.swapCount + 1,
                       st.calls ++ [⟨source_asset, asset, amount_to_swap, min_amount_out⟩]⟩
        else forceInner env assets targets router i asset current diff rest st
      | _, _, _ => forceInner env assets targets router i asset current diff rest st

/-- The outer deficit loop of `force_rebalance_to_allocation`
(`rebalance.rs` lines 875-1043): breaks once `max_swaps = 3` successful
swaps have been executed; dust threshold 1000. -/
def forceOuter (env : ExecEnv) (assets : List Address) (targets : List Int) (router : Address) :
    List Nat → ForceState → Except VaultError ForceState
  | [], st => .ok st
  | i :: rest, st =>
    if 3 ≤ st.swapCount then .ok st
    else
      match assets.get? i, st.balances.get? i, targets.get? i with
      | some asset, some current, some target =>
        let diff := target - current
        if diff.natAbs < 1000 then forceOuter env assets targets router rest st
        else if 0 < diff then
          match forceInner env assets targets router i asset current diff
                (List.range assets.length) st with
          | .error e => .error e
          | .ok st' => forceOuter env assets targets router rest st'
        else forceOuter env assets targets router rest st
      | _, _, _ => forceOuter env assets targets router rest st

/-- `force_rebalance_to_allocation` (`rebalance.rs` lines 804-1051):
the budget-constrained executor. -/
def forceRebalanceToAllocation (env : ExecEnv) (assets : List Address) (alloc : List Int)
    (total_value : Int) : Except VaultError ForceState :=
  match validateAllocation alloc assets.length with
  | .error e => .error e
  | .ok _ =>
    match env.routerAddress with
    | none => .error .InvalidConfiguration
    | some router =>
      let balances := assets.map env.balanceOf
      match computeTargets alloc total_value with
      | none => .error .InvalidAmount
      | some targets =>
        forceOuter env assets targets router (List.range assets.length) ⟨balances, 0, []⟩

/-! ## Liquidity action (`rebalance.rs` lines 634-712) -/

/-- `LiquidityPosition` of `types.rs`. -/
structure LiquidityPosition where
  pool_address : Address
  token_a : Address
  token_b : Address
  lp_tokens : Int
  amount_a_provided : Int
  amount_b_provided : Int
  timestamp : Nat
deriving DecidableEq, Repr

/-- Observable effects of a successful `execute_liquidity_action`: the
stored position, the emitted event value, and — to record the frame — the
token transfers performed and the external pool contracts invoked (the
function reads two balances but moves no tokens and calls no pool). -/
structure LiquidityEffects where
  position : LiquidityPosition
  eventAmount : Int
  tokenTransfersOut : List (Address × Address × Int)
  poolCallsMade : List Address
deriving DecidableEq, Repr

/-- `execute_liquidity_action` (`rebalance.rs` lines 634-712): computes
`liquidity_amount = total_value * threshold / 100_0000`, splits it
equally over the first two assets, checks the vault balances, and only
stores a `LiquidityPosition` with `lp_tokens = amount_a + amount_b`
(plus an event) — tokens stay in the vault and the configured pool is
never called. -/
def executeLiquidityAction (balanceOf : Address → Int) (threshold : Int)
    (assets : List Address) (total_value : Int)
    (liquidity_pool_address : Option Address) (now : Nat) :
    Except VaultError LiquidityEffects :=
  if assets.length < 2 then .error .InvalidConfiguration
  else
    match (checkedMul total_value threshold).bind (fun v => checkedDiv v 1000000) with
    | none => .error .InvalidAmount
    | some liquidity_amount =>
      if total_value < liquidity_amount then .error .InsufficientBalance
      else
        match liquidity_pool_address with
        | none => .error .InvalidConfiguration
        | some pool_address =>
          match assets.get? 0, assets.get? 1 with
          | some token_a, some token_b =>
            let balance_a := balanceOf token_a
            let balance_b := balanceOf token_b
            let amount_a := Int.tdiv liquidity_amount 2
            let amount_b := Int.tdiv liquidity_amount 2
            if balance_a < amount_a ∨ balance_b < amount_b then .error .InsufficientBalance
            else
              let lp_tokens := amount_a + amount_b
              .ok ⟨⟨pool_address, token_a, token_b, lp_tokens, amount_a, amount_b, now⟩,
                   lp_tokens, [], []⟩
          | _, _ => .error .InvalidConfiguration

/-! ## Inversion lemmas for the pool engine -/

theorem computeAmountOut_ok {x ri ro out : Int}
    (h : computeAmountOut x ri ro = .ok out) :
    ri * 1000 + x * 997 ≠ 0 ∧ out = (x * 997 * ro).tdiv (ri * 1000 + x * 997) := by
  unfold computeAmountOut at h
  cases hc : computeAmountOutChain x ri ro with
  | none => rw [hc] at h; exact absurd h (by simp)
  | some v =>
    rw [hc] at h
    obtain rfl : v = out := by simpa using h
    unfold computeAmountOutChain at hc
    simp only [Option.bind_eq_some] at hc
    obtain ⟨fee, hfee, num, hnum, den, hden, hdiv⟩ := hc
    obtain ⟨w, hw, hadd⟩ := hden
    have e1 := checkedMul_some hfee
    have e2 := checkedMul_some hnum
    have e3 := checkedMul_some hw
    have e4 := checkedAdd_some hadd
    obtain ⟨hne, hq⟩ := checkedDiv_some hdiv
    subst e1 e2 e3 e4
    exact ⟨hne, hq⟩

theorem swap_ok_cases {p : Pool} {tin : Address} {x min out : Int} {p' : Pool}
    (h : swap p tin x min = .ok (out, p')) :
    0 < x ∧
    ((tin = p.token_a ∧ computeAmountOut x p.reserve_a p.reserve_b = .ok out ∧
        min ≤ out ∧ out < p.reserve_b ∧
        p' = { p with reserve_a := p.reserve_a + x, reserve_b := p.reserve_b - out }) ∨
     (tin ≠ p.token_a ∧ tin = p.token_b ∧
        computeAmountOut x p.reserve_b p.reserve_a = .ok out ∧
        min ≤ out ∧ out < p.reserve_a ∧
        p' = { p with reserve_a := p.reserve_a - out, reserve_b := p.reserve_b + x })) := by
  unfold swap at h
  split at h
  · exact absurd h (by simp)
  next hx =>
    refine ⟨by omega, ?_⟩
    split at h
    next hta =>
      refine .inl ⟨hta, ?_⟩
      split at h
      · exact absurd h (by simp)
      next o ho =>
        split at h
        · exact absurd h (by simp)
        next hmin =>
          split at h
          · exact absurd h (by simp)
          next hres =>
            obtain ⟨rfl, rfl⟩ : o = out ∧
                ({ p with reserve_a := p.reserve_a + x,
                          reserve_b := p.reserve_b - o } : Pool) = p' := by
              simpa using h
            exact ⟨ho, by omega, by omega, rfl⟩
    next hta =>
      split at h
      next htb =>
        refine .inr ⟨hta, htb, ?_⟩
        split at h
        · exact absurd h (by simp)
        next o ho =>
          split at h
          · exact absurd h (by simp)
          next hmin =>
            split at h
            · exact absurd h (by simp)
            next hres =>
              obtain ⟨rfl, rfl⟩ : o = out ∧
                  ({ p with reserve_a := p.reserve_a - o,
                            reserve_b := p.reserve_b + x } : Pool) = p' := by
                simpa using h
              exact ⟨ho, by omega, by omega, rfl⟩
      next => exact absurd h (by simp)

/-- On a successful computation with non-negative reserves and positive
input, the truncating division is the floor. -/
theorem computeAmountOut_floor {x ri ro out : Int} (hri : 0 ≤ ri) (hro : 0 ≤ ro)
    (hx : 0 < x) (h : computeAmountOut x ri ro = .ok out) :
    out = x * 997 * ro / (ri * 1000 + x * 997) := by
  obtain ⟨hne, hq⟩ := computeAmountOut_ok h
  have hnum : (0 : Int) ≤ x * 997 * ro :=
    mul_nonneg (mul_nonneg (le_of_lt hx) (by norm_num)) hro
  have hden : (0 : Int) ≤ ri * 1000 + x * 997 := by omega
  rw [hq, Int.tdiv_eq_ediv hnum hden]

/-! ## Claim theorems: AMM pool engine -/

/-- C1: every successful pool swap with a valid token pair and positive
`amount_in` returns `floor(amount_in*997*reserve_out /
(reserve_in*1000 + amount_in*997))`, adds `amount_in` to the input-side
reserve and subtracts the output from the output-side reserve; in
particular, on reserves (1000, 500), swapping 100 of `asset_a` with
`min_out = 0` returns 45 and leaves reserves (1100, 455). -/
theorem spec_C1 :
    (∀ (p : Pool) (tin : Address) (x min out : Int) (p' : Pool),
       0 ≤ p.reserve_a → 0 ≤ p.reserve_b → 0 < x →
       swap p tin x min = .ok (out, p') →
       (tin = p.token_a →
          out = x * 997 * p.reserve_b / (p.reserve_a * 1000 + x * 997) ∧
          p'.reserve_a = p.reserve_a + x ∧ p'.reserve_b = p.reserve_b - out) ∧
       (tin ≠ p.token_a →
          tin = p.token_b ∧
          out = x * 997 * p.reserve_a / (p.reserve_b * 1000 + x * 997) ∧
          p'.reserve_b = p.reserve_b + x ∧ p'.reserve_a = p.reserve_a - out)) ∧
    swap ⟨0, 1, 1000, 500, 707⟩ 0 100 0 = .ok (45, ⟨0, 1, 1100, 455, 707⟩) := by
  constructor
  · intro p tin x min out p' hra hrb hx h
    obtain ⟨hxpos, hc | hc⟩ := swap_ok_cases h
    · obtain ⟨hta, hout, _, _, rfl⟩ := hc
      exact ⟨fun _ => ⟨computeAmountOut_floor hra hrb hxpos hout, rfl, rfl⟩,
             fun hne => absurd hta hne⟩
    · obtain ⟨hne, htb, hout, _, _, rfl⟩ := hc
      exact ⟨fun hta => absurd hta hne,
             fun _ => ⟨htb, computeAmountOut_floor hrb hra hxpos hout, rfl, rfl⟩⟩
  · decide

/-- Witness for C1 at the spec's concrete example. -/
theorem spec_C1_witness :
    (45 : Int) = 100 * 997 * 500 / (1000 * 1000 + 100 * 997) :=
  (((spec_C1.1 ⟨0, 1, 1000, 500, 707⟩ 0 100 0 45 ⟨0, 1, 1100, 455, 707⟩
    (by decide) (by decide) (by decide) (by decide)).1 rfl)).1

/-- C2: across every successful swap from a pool with non-negative
reserves, the product `reserve_a * reserve_b` does not decrease, both
reserves stay non-negative, and the output-side reserve stays strictly
positive (a draining swap is rejected). -/
theorem spec_C2 :
    ∀ (p : Pool) (tin : Address) (x min out : Int) (p' : Pool),
      0 ≤ p.reserve_a → 0 ≤ p.reserve_b →
      swap p tin x min = .ok (out, p') →
      p.reserve_a * p.reserve_b ≤ p'.reserve_a * p'.reserve_b ∧
      0 ≤ p'.reserve_a ∧ 0 ≤ p'.reserve_b ∧
      (tin = p.token_a → 0 < p'.reserve_b) ∧
      (tin ≠ p.token_a → 0 < p'.reserve_a) := by
  intro p tin x min out p' hra hrb h
  obtain ⟨hx, hc | hc⟩ := swap_ok_cases h
  · obtain ⟨hta, hout, _, hlt, rfl⟩ := hc
    obtain ⟨hne, hq⟩ := computeAmountOut_ok hout
    have hdenpos : 0 < p.reserve_a * 1000 + x * 997 := by omega
    have hnum : (0 : Int) ≤ x * 997 * p.reserve_b :=
      mul_nonneg (mul_nonneg (le_of_lt hx) (by norm_num)) hrb
    have heq : out = x * 997 * p.reserve_b / (p.reserve_a * 1000 + x * 997) := by
      rw [hq, Int.tdiv_eq_ediv hnum (le_of_lt hdenpos)]
    have hout0 : 0 ≤ out := heq ▸ Int.ediv_nonneg hnum (le_of_lt hdenpos)
    have hkey : out * (p.reserve_a * 1000 + x * 997) ≤ x * 997 * p.reserve_b := by
      rw [heq]; exact Int.ediv_mul_le _ (ne_of_gt hdenpos)
    refine ⟨?_, ?_, ?_, fun _ => ?_, fun _ => ?_⟩
    · show p.reserve_a * p.reserve_b ≤ (p.reserve_a + x) * (p.reserve_b - out)
      nlinarith [hkey, hout0, hlt, hx, hra, hrb]
    · show (0 : Int) ≤ p.reserve_a + x
      omega
    · show (0 : Int) ≤ p.reserve_b - out
      omega
    · show (0 : Int) < p.reserve_b - out
      omega
    · show (0 : Int) < p.reserve_a + x
      omega
  · obtain ⟨hnta, htb, hout, _, hlt, rfl⟩ := hc
    obtain ⟨hne, hq⟩ := computeAmountOut_ok hout
    have hdenpos : 0 < p.reserve_b * 1000 + x * 997 := by omega
    have hnum : (0 : Int) ≤ x * 997 * p.reserve_a :=
      mul_nonneg (mul_nonneg (le_of_lt hx) (by norm_num)) hra
    have heq : out = x * 997 * p.reserve_a / (p.reserve_b * 1000 + x * 997) := by
      rw [hq, Int.tdiv_eq_ediv hnum (le_of_lt hdenpos)]
    have hout0 : 0 ≤ out := heq ▸ Int.ediv_nonneg hnum (le_of_lt hdenpos)
    have hkey : out * (p.reserve_b * 1000 + x * 997) ≤ x * 997 * p.reserve_a := by
      rw [heq]; exact Int.ediv_mul_le _ (ne_of_gt hdenpos)
    refine ⟨?_, ?_, ?_, fun _ => ?_, fun _ => ?_⟩
    · show p.reserve_a * p.reserve_b ≤ (p.reserve_a - out) * (p.reserve_b + x)
      nlinarith [hkey, hout0, hlt, hx, hra, hrb]
    · show (0 : Int) ≤ p.reserve_a - out
      omega
    · show (0 : Int) ≤ p.reserve_b + x
      omega
    · show (0 : Int) < p.reserve_b + x
      omega
    · show (0 : Int) < p.reserve_a - out
      omega

/-- Witness for C2 at the spec's concrete example. -/
theorem spec_C2_witness : (1000 : Int) * 500 ≤ 1100 * 455 :=
  (spec_C2 ⟨0, 1, 1000, 500, 707⟩ 0 100 0 45 ⟨0, 1, 1100, 455, 707⟩
    (by decide) (by decide) (by decide)).1

/-- C7 counterexample: with `reserve_in = 0` the computed output equals
`reserve_out`, and a caller-supplied `amount_out_min` above it makes the
swap fail with `SlippageExceeded` — not `InsufficientLiquidity` as the
claim's second half requires for every output `≥ reserve_out` (the
source checks slippage first). -/
theorem spec_C7_counterexample :
    computeAmountOut 100 (0 : Int) 500 = .ok 500 ∧
    (⟨0, 1, 0, 500, 0⟩ : Pool).reserve_b ≤ 500 ∧
    swap ⟨0, 1, 0, 500, 0⟩ 0 100 1000 = .error .SlippageExceeded ∧
    swap ⟨0, 1, 0, 500, 0⟩ 0 100 1000 ≠ .error .InsufficientLiquidity := by decide

/-- C7 (amended): a swap whose computed output is below `amount_out_min`
fails with `SlippageExceeded`, and a swap whose computed output is at
least `amount_out_min` *and* at least the output-side reserve fails with
`InsufficientLiquidity` (the slippage check runs first); in both cases
the invocation aborts, so reserves and `total_shares` are unchanged. -/
theorem spec_C7 :
    ∀ (p : Pool) (tin : Address) (x min out : Int),
      0 < x → (tin = p.token_a ∨ tin = p.token_b) →
      computeAmountOut x (if tin = p.token_a then p.reserve_a else p.reserve_b)
        (if tin = p.token_a then p.reserve_b else p.reserve_a) = .ok out →
      (out < min →
        swap p tin x min = .error .SlippageExceeded ∧ swapFinalState p tin x min = p) ∧
      (min ≤ out → (if tin = p.token_a then p.reserve_b else p.reserve_a) ≤ out →
        swap p tin x min = .error .InsufficientLiquidity ∧
        swapFinalState p tin x min = p) := by
  intro p tin x min out hx hvalid hcomp
  by_cases hta : tin = p.token_a
  · simp only [if_pos hta] at hcomp
    constructor
    · intro hlt
      have hs : swap p tin x min = .error .SlippageExceeded := by
        simp only [swap, hcomp, if_neg (not_le.mpr hx), if_pos hta, if_pos hlt]
      exact ⟨hs, by simp [swapFinalState, hs]⟩
    · intro hge hres
      simp only [if_pos hta] at hres
      have hs : swap p tin x min = .error .InsufficientLiquidity := by
        simp only [swap, hcomp, if_neg (not_le.mpr hx), if_pos hta,
          if_neg (not_lt.mpr hge), if_pos hres]
      exact ⟨hs, by simp [swapFinalState, hs]⟩
  · have htb : tin = p.token_b := hvalid.resolve_left hta
    simp only [if_neg hta] at hcomp
    constructor
    · intro hlt
      have hs : swap p tin x min = .error .SlippageExceeded := by
        simp only [swap, hcomp, if_neg (not_le.mpr hx), if_neg hta, if_pos htb, if_pos hlt]
      exact ⟨hs, by simp [swapFinalState, hs]⟩
    · intro hge hres
      simp only [if_neg hta] at hres
      have hs : swap p tin x min = .error .InsufficientLiquidity := by
        simp only [swap, hcomp, if_neg (not_le.mpr hx), if_neg hta, if_pos htb,
          if_neg (not_lt.mpr hge), if_pos hres]
      exact ⟨hs, by simp [swapFinalState, hs]⟩

/-- Witness for C7: on reserves (1000, 500), a swap of 100 with
`amount_out_min = 1000` (above the computed 45) fails with
`SlippageExceeded` and leaves the pool record untouched. -/
theorem spec_C7_witness :
    swap ⟨0, 1, 1000, 500, 707⟩ 0 100 1000 = .error .SlippageExceeded ∧
    swapFinalState ⟨0, 1, 1000, 500, 707⟩ 0 100 1000 = ⟨0, 1, 1000, 500, 707⟩ :=
  (spec_C7 ⟨0, 1, 1000, 500, 707⟩ 0 100 1000 45 (by decide) (Or.inl rfl)
    (by decide)).1 (by decide)

/-! ## Claim theorems: liquidity-share minting -/

theorem addLiquidityShares_zero {p : Pool} {a b l : Int} (hts : p.total_shares = 0)
    (h : addLiquidityShares p a b = .ok l) : l = sqrtI (a * b) := by
  unfold addLiquidityShares at h
  rw [if_pos hts] at h
  cases hm : checkedMul a b with
  | none => rw [hm] at h; exact absurd h (by simp)
  | some prod =>
    rw [hm] at h
    have hp := checkedMul_some hm
    subst hp
    have h2 : sqrtI (a * b) = l := by simpa using h
    exact h2.symm

theorem addLiquidityShares_pos {p : Pool} {a b l : Int} (hts : p.total_shares ≠ 0)
    (h : addLiquidityShares p a b = .ok l) :
    p.reserve_a ≠ 0 ∧ p.reserve_b ≠ 0 ∧
    l = min ((a * p.total_shares).tdiv p.reserve_a)
            ((b * p.total_shares).tdiv p.reserve_b) := by
  unfold addLiquidityShares at h
  rw [if_neg hts] at h
  cases h1 : (checkedMul a p.total_shares).bind fun v => checkedDiv v p.reserve_a with
  | none => rw [h1] at h; exact absurd h (by simp)
  | some la =>
    cases h2 : (checkedMul b p.total_shares).bind fun v => checkedDiv v p.reserve_b with
    | none => rw [h1, h2] at h; exact absurd h (by simp)
    | some lb =>
      rw [h1, h2] at h
      obtain rfl : (if la < lb then la else lb) = l := by simpa using h
      simp only [Option.bind_eq_some] at h1 h2
      obtain ⟨v1, hv1, hd1⟩ := h1
      obtain ⟨v2, hv2, hd2⟩ := h2
      have e1 := checkedMul_some hv1
      have e2 := checkedMul_some hv2
      obtain ⟨hra, hq1⟩ := checkedDiv_some hd1
      obtain ⟨hrb, hq2⟩ := checkedDiv_some hd2
      subst e1 e2
      refine ⟨hra, hrb, ?_⟩
      rw [hq1, hq2]
      split <;> omega

theorem addLiquidity_ok {p : Pool} {ad bd am bm : Int} {r : AddLiquidityResult}
    (h : addLiquidity p ad bd am bm = .ok r) :
    addLiquidityAmounts p ad bd am bm = .ok (r.amount_a, r.amount_b) ∧
    addLiquidityShares p r.amount_a r.amount_b = .ok r.liquidity ∧
    0 < r.liquidity := by
  unfold addLiquidity at h
  cases hab : addLiquidityAmounts p ad bd am bm with
  | error e => rw [hab] at h; exact absurd h (by simp)
  | ok v =>
    obtain ⟨a, b⟩ := v
    simp only [hab] at h
    cases hs : addLiquidityShares p a b with
    | error e => simp only [hs] at h; exact absurd h (by simp)
    | ok l =>
      simp only [hs] at h
      split at h
      · exact absurd h (by simp)
      next hpos =>
        obtain rfl : (⟨l, a, b,
            { p with reserve_a := p.reserve_a + a, reserve_b := p.reserve_b + b,
                     total_shares := p.total_shares + l }⟩ : AddLiquidityResult) = r := by
          simpa using h
        dsimp only
        exact ⟨rfl, hs, by omega⟩

/-- C5: a successful `add_liquidity` mints `sqrt(amount_a * amount_b)`
shares when `total_shares = 0` and
`min(amount_a*total_shares/reserve_a, amount_b*total_shares/reserve_b)`
otherwise; it fails with `InsufficientLiquidity` whenever the computed
shares are ≤ 0; and on a fresh pool, `add_liquidity(1000, 500, 0, 0)`
mints `sqrt(500000) = 707` shares and sets the reserves to (1000, 500). -/
theorem spec_C5 :
    (∀ (p : Pool) (ad bd am bm : Int) (r : AddLiquidityResult),
       0 ≤ p.reserve_a → 0 ≤ p.reserve_b → 0 ≤ p.total_shares →
       addLiquidity p ad bd am bm = .ok r →
       0 < r.liquidity ∧
       (p.total_shares = 0 → r.liquidity = sqrtI (r.amount_a * r.amount_b)) ∧
       (p.total_shares ≠ 0 → 0 ≤ r.amount_a → 0 ≤ r.amount_b →
          r.liquidity = min (r.amount_a * p.total_shares / p.reserve_a)
                            (r.amount_b * p.total_shares / p.reserve_b))) ∧
    (∀ (p : Pool) (ad bd am bm a b l : Int),
       addLiquidityAmounts p ad bd am bm = .ok (a, b) →
       addLiquidityShares p a b = .ok l → l ≤ 0 →
       addLiquidity p ad bd am bm = .error .InsufficientLiquidity) ∧
    addLiquidity ⟨0, 1, 0, 0, 0⟩ 1000 500 0 0 =
      .ok ⟨707, 1000, 500, ⟨0, 1, 1000, 500, 707⟩⟩ := by
  refine ⟨?_, ?_, by decide⟩
  · intro p ad bd am bm r hra hrb hts h
    obtain ⟨hab, hs, hpos⟩ := addLiquidity_ok h
    refine ⟨hpos, fun h0 => addLiquidityShares_zero h0 hs, fun hne hna hnb => ?_⟩
    obtain ⟨hra0, hrb0, hmin⟩ := addLiquidityShares_pos hne hs
    rw [hmin, Int.tdiv_eq_ediv (mul_nonneg hna hts) hra,
        Int.tdiv_eq_ediv (mul_nonneg hnb hts) hrb]
  · intro p ad bd am bm a b l hab hs hle
    simp only [addLiquidity, hab, hs, if_pos hle]

/-- Witness for C5 at the fresh-pool example. -/
theorem spec_C5_witness : (707 : Int) = sqrtI (1000 * 500) :=
  ((spec_C5.1 ⟨0, 1, 0, 0, 0⟩ 1000 500 0 0 ⟨707, 1000, 500, ⟨0, 1, 1000, 500, 707⟩⟩
    (by decide) (by decide) (by decide) (by decide)).2.1 rfl)

/-! ## Claim theorems: vault share ledger -/

theorem depositShares_ok {st : VaultState} {a s : Int}
    (h : depositShares st a = .ok s) :
    (st.total_shares = 0 → s = a) ∧
    (st.total_shares ≠ 0 →
       st.total_value ≠ 0 ∧ s = (a * st.total_shares).tdiv st.total_value) := by
  unfold depositShares at h
  by_cases h0 : st.total_shares = 0
  · rw [if_pos h0] at h
    have hsa : a = s := by simpa using h
    exact ⟨fun _ => hsa.symm, fun hne => absurd h0 hne⟩
  · rw [if_neg h0] at h
    cases hb : (checkedMul a st.total_shares).bind fun v => checkedDiv v st.total_value with
    | none => rw [hb] at h; exact absurd h (by simp)
    | some v =>
      rw [hb] at h
      obtain rfl : v = s := by simpa using h
      simp only [Option.bind_eq_some] at hb
      obtain ⟨w, hw, hd⟩ := hb
      have e1 := checkedMul_some hw
      obtain ⟨htv, hq⟩ := checkedDiv_some hd
      subst e1
      exact ⟨fun hz => absurd hz h0, fun _ => ⟨htv, hq⟩⟩

theorem depositUpdate_ok {st : VaultState} {pos : UserPosition} {a : Int} {now : Nat}
    {r : DepositResult} (h : depositUpdate st pos a now = .ok r) :
    depositShares st a = .ok r.shares ∧
    r.state.total_shares = st.total_shares + r.shares ∧
    r.state.total_value = st.total_value + a ∧
    r.position.shares = pos.shares + r.shares := by
  unfold depositUpdate at h
  cases hs : depositShares st a with
  | error e => rw [hs] at h; exact absurd h (by simp)
  | ok s =>
    simp only [hs] at h
    cases h1 : checkedAdd st.total_shares s with
    | none => simp only [h1] at h; exact absurd h (by simp)
    | some ts =>
      cases h2 : checkedAdd st.total_value a with
      | none => simp only [h1, h2] at h; exact absurd h (by simp)
      | some tv =>
        cases h3 : checkedAdd pos.shares s with
        | none => simp only [h1, h2, h3] at h; exact absurd h (by simp)
        | some ps =>
          simp only [h1, h2, h3] at h
          obtain rfl : (⟨s, { st with total_shares := ts, total_value := tv },
              ⟨ps, now⟩⟩ : DepositResult) = r := by simpa using h
          have e1 := checkedAdd_some h1
          have e2 := checkedAdd_some h2
          have e3 := checkedAdd_some h3
          refine ⟨?_, ?_, ?_, ?_⟩ <;> dsimp only <;> omega

/-- C3: a successful deposit of final amount `a` mints exactly `a`
shares when `total_shares = 0`, and `floor(a * total_shares /
total_value)` shares otherwise; a first deposit of 1,000,000 units mints
1,000,000 shares, and a further deposit of 500,000 units at
`total_value = total_shares = 1,000,000` mints 500,000 shares. -/
theorem spec_C3 :
    (∀ (st : VaultState) (pos : UserPosition) (a : Int) (now : Nat) (r : DepositResult),
       0 ≤ a → 0 ≤ st.total_shares → 0 ≤ st.total_value →
       depositUpdate st pos a now = .ok r →
       (st.total_shares = 0 → r.shares = a) ∧
       (st.total_shares ≠ 0 → r.shares = a * st.total_shares / st.total_value)) ∧
    depositUpdate ⟨0, 0, 0⟩ ⟨0, 0⟩ 1000000 0 =
      .ok ⟨1000000, ⟨1000000, 1000000, 0⟩, ⟨1000000, 0⟩⟩ ∧
    depositUpdate ⟨1000000, 1000000, 0⟩ ⟨1000000, 0⟩ 500000 5 =
      .ok ⟨500000, ⟨1500000, 1500000, 0⟩, ⟨1500000, 5⟩⟩ := by
  refine ⟨?_, by decide, by decide⟩
  intro st pos a now r ha hts htv h
  obtain ⟨hsh, _, _, _⟩ := depositUpdate_ok h
  obtain ⟨hz, hnz⟩ := depositShares_ok hsh
  refine ⟨hz, fun hne => ?_⟩
  obtain ⟨htv0, hq⟩ := hnz hne
  rw [hq, Int.tdiv_eq_ediv (mul_nonneg ha hts) htv]

/-- Witness for C3 at the spec's second-deposit example. -/
theorem spec_C3_witness : (500000 : Int) = 500000 * 1000000 / 1000000 :=
  (spec_C3.1 ⟨1000000, 1000000, 0⟩ ⟨1000000, 0⟩ 500000 5
    ⟨500000, ⟨1500000, 1500000, 0⟩, ⟨1500000, 5⟩⟩
    (by decide) (by decide) (by decide) (by decide)).2 (by decide)

theorem withdrawActual_ok {st : VaultState} {shares amount fb actual : Int}
    (h : withdrawActual st shares amount fb = .ok actual) :
    (fb < amount →
       st.total_shares ≠ 0 ∧ actual = (fb * shares).tdiv st.total_shares) ∧
    (amount ≤ fb → actual = amount) := by
  unfold withdrawActual at h
  by_cases hlt : fb < amount
  · rw [if_pos hlt] at h
    cases hb : (checkedMul fb shares).bind fun v => checkedDiv v st.total_shares with
    | none => rw [hb] at h; exact absurd h (by simp)
    | some v =>
      rw [hb] at h
      obtain rfl : v = actual := by simpa using h
      simp only [Option.bind_eq_some] at hb
      obtain ⟨w, hw, hd⟩ := hb
      have e1 := checkedMul_some hw
      obtain ⟨hts, hq⟩ := checkedDiv_some hd
      subst e1
      exact ⟨fun _ => ⟨hts, hq⟩, fun hge => absurd hlt (not_lt.mpr hge)⟩
  · rw [if_neg hlt] at h
    have haa : amount = actual := by simpa using h
    exact ⟨fun hc => absurd hc hlt, fun _ => haa.symm⟩

theorem withdrawUpdate_ok {st : VaultState} {pos : UserPosition} {s fb : Int}
    {r : WithdrawResult} (h : withdrawUpdate st pos s fb = .ok r) :
    0 < s ∧ st.total_shares ≠ 0 ∧
    ∃ amount,
      (checkedMul s st.total_value).bind (fun v => checkedDiv v st.total_shares)
        = some amount ∧
      withdrawActual st s amount fb = .ok r.payout ∧
      r.state.total_shares = st.total_shares - s ∧
      r.state.total_value = st.total_value - r.payout := by
  unfold withdrawUpdate at h
  split at h
  · exact absurd h (by simp)
  next hs0 =>
    split at h
    · exact absurd h (by simp)
    next hpos =>
      split at h
      · exact absurd h (by simp)
      next hts0 =>
        cases hb : (checkedMul s st.total_value).bind fun v => checkedDiv v st.total_shares with
        | none => rw [hb] at h; exact absurd h (by simp)
        | some amount =>
          simp only [hb] at h
          cases hact : withdrawActual st s amount fb with
          | error e => simp only [hact] at h; exact absurd h (by simp)
          | ok actual =>
            simp only [hact] at h
            split at h
            · exact absurd h (by simp)
            next hbal =>
              cases h1 : checkedSub st.total_shares s with
              | none => simp only [h1] at h; exact absurd h (by simp)
              | some ts =>
                cases h2 : checkedSub st.total_value actual with
                | none => simp only [h1, h2] at h; exact absurd h (by simp)
                | some tv =>
                  cases h3 : checkedSub pos.shares s with
                  | none => simp only [h1, h2, h3] at h; exact absurd h (by simp)
                  | some ps =>
                    simp only [h1, h2, h3] at h
                    obtain rfl : (⟨actual,
                        { st with total_shares := ts, total_value := tv },
                        if ps = 0 then none else some { pos with shares := ps }⟩ :
                        WithdrawResult) = r := by simpa using h
                    have e1 := checkedSub_some h1
                    have e2 := checkedSub_some h2
                    refine ⟨by omega, hts0, amount, rfl, ?_, ?_, ?_⟩ <;> dsimp only
                    · exact hact
                    · omega
                    · omega

/-- C4: on a successful withdrawal of `s` shares with realized
exit-asset balance `fb`, the payout is `floor(fb * s / total_shares)`
when `fb` falls strictly below the entitlement
`floor(s * total_value / total_shares)`, and exactly the entitlement
otherwise; the aggregate state is decremented by `s` shares and by the
amount actually paid. -/
theorem spec_C4 :
    ∀ (st : VaultState) (pos : UserPosition) (s fb : Int) (r : WithdrawResult),
      0 ≤ fb → 0 ≤ st.total_shares → 0 ≤ st.total_value →
      withdrawUpdate st pos s fb = .ok r →
      (fb < s * st.total_value / st.total_shares →
         r.payout = fb * s / st.total_shares) ∧
      (s * st.total_value / st.total_shares ≤ fb →
         r.payout = s * st.total_value / st.total_shares) ∧
      r.state.total_shares = st.total_shares - s ∧
      r.state.total_value = st.total_value - r.payout := by
  intro st pos s fb r hfb hts htv h
  obtain ⟨hs, hts0, amount, hb, hact, hst, htvl⟩ := withdrawUpdate_ok h
  simp only [Option.bind_eq_some] at hb
  obtain ⟨w, hw, hd⟩ := hb
  have e1 := checkedMul_some hw
  obtain ⟨_, hq⟩ := checkedDiv_some hd
  subst e1
  have hamount : amount = s * st.total_value / st.total_shares := by
    rw [hq, Int.tdiv_eq_ediv (mul_nonneg (le_of_lt hs) htv) hts]
  obtain ⟨hshort, hfull⟩ := withdrawActual_ok hact
  refine ⟨fun hlt => ?_, fun hge => ?_, hst, htvl⟩
  · obtain ⟨_, hpay⟩ := hshort (hamount ▸ hlt)
    rw [hpay, Int.tdiv_eq_ediv (mul_nonneg hfb (le_of_lt hs)) hts]
  · rw [hfull (hamount ▸ hge), hamount]

/-- Witness for C4: a sole depositor withdrawing all 1,000,000 shares
when only 900,000 exit-asset units were realized is paid
`floor(900000 * 1000000 / 1000000) = 900000`. -/
theorem spec_C4_witness :
    (900000 : Int) < 1000000 * 1000000 / 1000000 ∧
    (900000 : Int) = 900000 * 1000000 / 1000000 := by
  have h := spec_C4 ⟨1000000, 1000000, 0⟩ ⟨1000000, 0⟩ 1000000 900000
    ⟨900000, ⟨0, 100000, 0⟩, none⟩ (by decide) (by decide) (by decide) (by decide)
  exact ⟨by decide, h.1 (by decide)⟩

/-! ## Claim theorems: target-allocation validation -/

/-- C6: a target-allocation vector of matching length whose entries sum
to anything other than 0 or 1,000,000 makes the planner and both
executors fail with `InvalidConfiguration`, while a sum of exactly
1,000,000 or 0 passes the validation; `[400000, 300000, 200000]`
(sum 900,000) fails and `[700000, 300000]` (sum 1,000,000) passes. -/
theorem spec_C6 :
    (∀ (alloc : List Int) (n : Nat) (s : Int),
       alloc.length = n → sumChecked alloc = some s → s ≠ 1000000 → s ≠ 0 →
       validateAllocation alloc n = .error .InvalidConfiguration) ∧
    (∀ (alloc : List Int) (n : Nat) (s : Int),
       alloc.length = n → sumChecked alloc = some s → (s = 1000000 ∨ s = 0) →
       validateAllocation alloc n = .ok ()) ∧
    (∀ (envP : PlanEnv) (envE : ExecEnv) (assets : List Address) (alloc : List Int)
       (tv : Int),
       validateAllocation alloc assets.length = .error .InvalidConfiguration →
       calculateRebalancePlan envP assets alloc tv = .error .InvalidConfiguration ∧
       executeRebalanceAction envE assets alloc tv = .error .InvalidConfiguration ∧
       forceRebalanceToAllocation envE assets alloc tv = .error .InvalidConfiguration) ∧
    (sumChecked [400000, 300000, 200000] = some 900000 ∧
     calculateRebalancePlan ⟨fun _ => 0, fun _ => none⟩ [0, 1, 2]
       [400000, 300000, 200000] 0 = .error .InvalidConfiguration) ∧
    (sumChecked [700000, 300000] = some 1000000 ∧
     validateAllocation [700000, 300000] 2 = .ok () ∧
     calculateRebalancePlan ⟨fun _ => 0, fun _ => none⟩ [0, 1] [700000, 300000] 0
       = .ok ⟨[], 0⟩) := by
  refine ⟨?_, ?_, ?_, by decide, by decide⟩
  · intro alloc n s hlen hsum hs1 hs0
    unfold validateAllocation
    rw [if_neg (by omega), hsum]
    dsimp only
    rw [if_pos ⟨hs1, hs0⟩]
  · intro alloc n s hlen hsum hor
    unfold validateAllocation
    rw [if_neg (by omega), hsum]
    dsimp only
    rw [if_neg (by tauto)]
  · intro envP envE assets alloc tv hval
    exact ⟨by simp only [calculateRebalancePlan, hval],
           by simp only [executeRebalanceAction, hval],
           by simp only [forceRebalanceToAllocation, hval]⟩

/-- Witness for C6 at the two concrete vectors of the spec. -/
theorem spec_C6_witness :
    validateAllocation [400000, 300000, 200000] 3 = .error .InvalidConfiguration ∧
    validateAllocation [700000, 300000] 2 = .ok () := by
  constructor
  · exact spec_C6.1 [400000, 300000, 200000] 3 900000 (by decide) (by decide)
      (by decide) (by decide)
  · exact spec_C6.2.1 [700000, 300000] 2 1000000 (by decide) (by decide) (.inl rfl)

/-! ## Claim theorems: slippage minimum of planned and executed swaps -/

theorem planFindSource_some {env : PlanEnv} {assets : List Address}
    {targets balances : List Int} {i : Nat} {asset : Address} {diff : Int}
    {js : List Nat} {j : Nat} {sc : Int} {step : RebalanceStep}
    (h : planFindSource env assets targets balances i asset diff js = some (j, sc, step)) :
    step.min_amount_out = Int.tdiv (step.amount_in * 95) 100 := by
  induction js with
  | nil => exact absurd h (by simp [planFindSource])
  | cons j0 rest ih =>
    simp only [planFindSource] at h
    split at h
    · exact ih h
    · split at h
      · split at h
        · split at h
          · exact ih h
          · split at h <;> split at h <;>
              first
                | exact ih h
                | (simp only [Option.some.injEq, Prod.mk.injEq] at h
                   obtain ⟨h1, h2, h3⟩ := h
                   subst h3
                   rfl)
        · exact ih h
      · exact ih h

theorem planOuter_inv {env : PlanEnv} {assets : List Address} {targets : List Int} :
    ∀ (is : List Nat) (balances : List Int) (steps : List RebalanceStep),
      (∀ st ∈ steps, st.min_amount_out = Int.tdiv (st.amount_in * 95) 100) →
      ∀ st ∈ planOuter env assets targets is balances steps,
        st.min_amount_out = Int.tdiv (st.amount_in * 95) 100 := by
  intro is
  induction is with
  | nil =>
    intro balances steps hinv st hst
    simp only [planOuter] at hst
    exact hinv st hst
  | cons i rest ih =>
    intro balances steps hinv st hst
    simp only [planOuter] at hst
    split at hst
    · split at hst
      · exact ih _ _ hinv st hst
      · split at hst
        · split at hst
          · exact ih _ _ hinv st hst
          next j sc step' hfind =>
            refine ih _ _ ?_ st hst
            intro st' hst'
            rcases List.mem_append.mp hst' with hmem | hone
            · exact hinv st' hmem
            · obtain rfl : st' = step' := by simpa using hone
              exact planFindSource_some hfind
        · exact ih _ _ hinv st hst
    · exact ih _ _ hinv st hst

/-- The balance reads and custom-pool registrations of the C8 analysis
scenario: the vault holds 10,000 units of asset 1 and none of asset 0;
asset 1 is registered against custom pool 99. -/
def planScenarioEnv : PlanEnv :=
  ⟨fun a => if a = 0 then 0 else 10000, fun a => if a = 1 then some 99 else none⟩

/-- The state of custom pool 99 in the C8 analysis scenario: asset 1 is
its `token_a` with reserve 1,000,000 against 500,000 of asset 0. -/
def planScenarioPool : Pool := ⟨1, 0, 1000000, 500000, 707000⟩

/-- C8 counterexample: the plan recorded for the scenario swaps 10,000
of asset 1 into asset 0 through pool 99 with
`min_amount_out = floor(10000*95/100) = 9500` — 95% of the *input*
amount — while the AMM pricing formula on pool 99's reserves yields an
expected output of 4935, whose 95% is 4688 ≠ 9500.  The claim that every
planned step's minimum equals 95% of the constant-product expected
output is therefore false. -/
theorem spec_C8_counterexample :
    calculateRebalancePlan planScenarioEnv [0, 1] [1000000, 0] 10000 =
      .ok ⟨[⟨1, 0, 10000, 9500, 99⟩], 1⟩ ∧
    planScenarioEnv.customPool 1 = some 99 ∧
    planScenarioPool.token_a = 1 ∧ planScenarioPool.token_b = 0 ∧
    computeAmountOut 10000 planScenarioPool.reserve_a planScenarioPool.reserve_b
      = .ok 4935 ∧
    Int.tdiv (4935 * 95) 100 = 4688 ∧
    (9500 : Int) ≠ 4688 := by decide

/-- The inner scan of the budget-constrained executor always succeeds,
performs at most one successful swap, and every router call it appends
uses the 95%-of-input minimum. -/
theorem forceInner_ok {env : ExecEnv} {assets : List Address} {targets : List Int}
    {router : Address} {i : Nat} {asset : Address} {current diff : Int} :
    ∀ (js : List Nat) (st : ForceState),
      ∃ st', forceInner env assets targets router i asset current diff js st = .ok st' ∧
        st.swapCount ≤ st'.swapCount ∧ st'.swapCount ≤ st.swapCount + 1 ∧
        ∀ c ∈ st'.calls, c ∈ st.calls ∨ c.minOut = Int.tdiv (c.amountIn * 95) 100 := by
  intro js
  induction js with
  | nil =>
    intro st
    exact ⟨st, rfl, le_refl _, by omega, fun c hc => .inl hc⟩
  | cons j rest ih =>
    intro st
    simp only [forceInner]
    by_cases hij : i = j
    · rw [if_pos hij]
      exact ih st
    rw [if_neg hij]
    cases hg1 : assets.get? j with
    | none => exact ih st
    | some source_asset =>
      cases hg2 : st.balances.get? j with
      | none => exact ih st
      | some source_current =>
        cases hg3 : targets.get? j with
        | none => exact ih st
        | some source_target =>
          dsimp only
          by_cases hth : source_target + 1000 < source_current
          case neg => rw [if_neg hth]; exact ih st
          rw [if_pos hth]
          cases hpool : (env.customPool source_asset).orElse
              (fun _ => env.customPool asset) with
          | none => exact ih st
          | some pool =>
            dsimp only
            rcases lt_or_ge (source_current - source_target) diff with hed | hed
            · rw [if_pos hed]
              by_cases hamt : source_current - source_target < 1000
              case pos => rw [if_pos hamt]; exact ih st
              rw [if_neg hamt]
              rw [show approveRouter source_asset router (source_current - source_target)
                    = .ok () from by unfold approveRouter; rw [if_neg (by omega)]]
              cases hswap : env.routerSwap source_asset asset
                  (source_current - source_target)
                  (Int.tdiv ((source_current - source_target) * 95) 100) with
              | error e => exact ih st
              | ok amount_out =>
                refine ⟨_, rfl, ?_, ?_, ?_⟩ <;> dsimp only
                · omega
                · omega
                · intro c hc
                  rcases List.mem_append.mp hc with hmem | hone
                  · exact .inl hmem
                  · obtain rfl : c = ⟨source_asset, asset, source_current - source_target,
                        Int.tdiv ((source_current - source_target) * 95) 100⟩ := by
                      simpa using hone
                    exact .inr rfl
            · rw [if_neg (not_lt.mpr hed)]
              by_cases hamt : diff < 1000
              case pos => rw [if_pos hamt]; exact ih st
              rw [if_neg hamt]
              rw [show approveRouter source_asset router diff = .ok () from by
                    unfold approveRouter; rw [if_neg (by omega)]]
              cases hswap : env.routerSwap source_asset asset diff
                  (Int.tdiv (diff * 95) 100) with
              | error e => exact ih st
              | ok amount_out =>
                refine ⟨_, rfl, ?_, ?_, ?_⟩ <;> dsimp only
                · omega
                · omega
                · intro c hc
                  rcases List.mem_append.mp hc with hmem | hone
                  · exact .inl hmem
                  · obtain rfl : c = ⟨source_asset, asset, diff,
                        Int.tdiv (diff * 95) 100⟩ := by simpa using hone
                    exact .inr rfl

/-- The outer loop of the budget-constrained executor always succeeds,
keeps the successful-swap counter at 3 or below, and appends only
95%-of-input router calls. -/
theorem forceOuter_ok {env : ExecEnv} {assets : List Address} {targets : List Int}
    {router : Address} :
    ∀ (is : List Nat) (st : ForceState), st.swapCount ≤ 3 →
      ∃ st', forceOuter env assets targets router is st = .ok st' ∧
        st'.swapCount ≤ 3 ∧
        ∀ c ∈ st'.calls, c ∈ st.calls ∨ c.minOut = Int.tdiv (c.amountIn * 95) 100 := by
  intro is
  induction is with
  | nil =>
    intro st hst
    exact ⟨st, rfl, hst, fun c hc => .inl hc⟩
  | cons i rest ih =>
    intro st hst
    simp only [forceOuter]
    by_cases hcap : 3 ≤ st.swapCount
    · rw [if_pos hcap]
      exact ⟨st, rfl, hst, fun c hc => .inl hc⟩
    rw [if_neg hcap]
    cases hg1 : assets.get? i with
    | none => exact ih st hst
    | some asset =>
      cases hg2 : st.balances.get? i with
      | none => exact ih st hst
      | some current =>
        cases hg3 : targets.get? i with
        | none => exact ih st hst
        | some target =>
          dsimp only
          by_cases hdust : (target - current).natAbs < 1000
          case pos => rw [if_pos hdust]; exact ih st hst
          rw [if_neg hdust]
          by_cases hdiff : 0 < target - current
          case neg => rw [if_neg hdiff]; exact ih st hst
          rw [if_pos hdiff]
          obtain ⟨st1, heq, hlo, hhi, hcalls1⟩ :=
            @forceInner_ok env assets targets router i asset current (target - current)
              (List.range assets.length) st
          rw [heq]
          obtain ⟨st', heq', hcount', hcalls'⟩ := ih st1 (by omega)
          refine ⟨st', heq', hcount', fun c hc => ?_⟩
          rcases hcalls' c hc with hmem | hmin
          · rcases hcalls1 c hmem with hmem1 | hmin1
            · exact .inl hmem1
            · exact .inr hmin1
          · exact .inr hmin

/-- The allocation validation fails only with `InvalidConfiguration`. -/
theorem validateAllocation_error {alloc : List Int} {n : Nat} {e : VaultError}
    (h : validateAllocation alloc n = .error e) : e = .InvalidConfiguration := by
  unfold validateAllocation at h
  split at h
  · simpa using h.symm
  · split at h
    · simpa using h.symm
    · split at h
      · simpa using h.symm
      · exact absurd h (by simp)

/-- Successful-run inversion for `force_rebalance_to_allocation`: the
result is produced by the outer loop started on the read balances with
swap counter 0 and an empty call trace. -/
theorem forceRebalance_ok {env : ExecEnv} {assets : List Address} {alloc : List Int}
    {tv : Int} {r : ForceState}
    (h : forceRebalanceToAllocation env assets alloc tv = .ok r) :
    ∃ router targets, env.routerAddress = some router ∧
      computeTargets alloc tv = some targets ∧
      forceOuter env assets targets router (List.range assets.length)
        ⟨assets.map env.balanceOf, 0, []⟩ = .ok r := by
  unfold forceRebalanceToAllocation at h
  split at h
  · exact absurd h (by simp)
  · split at h
    · exact absurd h (by simp)
    next router hrouter =>
      split at h
      · exact absurd h (by simp)
      next targets htargets =>
        exact ⟨router, targets, hrouter, htargets, h⟩

/-- An executor environment whose router rejects every swap with a
caller-chosen error; the vault holds 10,000 units of asset 1 only, and a
custom pool is registered for every asset. -/
def failingRouterEnv (e : VaultError) : ExecEnv :=
  ⟨fun a => if a = 0 then 0 else 10000, fun _ => some 99, some 7, 8,
   fun _ _ _ => .ok 99, fun _ _ _ amount => .ok amount, fun _ _ _ amount => .ok amount,
   fun _ _ _ _ => .error e⟩

/-- C9: the budget-constrained executor `force_rebalance_to_allocation`
executes at most 3 successful router swaps, and the only errors it can
return arise from validation and setup (`InvalidConfiguration`,
`InvalidAmount`) — a failed router swap or missing pool is skipped, so
the invocation succeeds even when every leg fails; by contrast the
unconstrained `execute_rebalance_action` propagates a router-swap
failure, aborting the whole rebalance with that very error. -/
theorem spec_C9 :
    (∀ (env : ExecEnv) (assets : List Address) (alloc : List Int) (tv : Int)
       (r : ForceState),
       forceRebalanceToAllocation env assets alloc tv = .ok r → r.swapCount ≤ 3) ∧
    (∀ (env : ExecEnv) (assets : List Address) (alloc : List Int) (tv : Int)
       (e : VaultError),
       forceRebalanceToAllocation env assets alloc tv = .error e →
       e = .InvalidConfiguration ∨ e = .InvalidAmount) ∧
    (∀ e : VaultError,
       executeRebalanceAction (failingRouterEnv e) [0, 1] [1000000, 0] 10000
         = .error e) := by
  refine ⟨?_, ?_, ?_⟩
  · intro env assets alloc tv r h
    obtain ⟨router, targets, _, _, houter⟩ := forceRebalance_ok h
    obtain ⟨st', heq, hcount, _⟩ :=
      @forceOuter_ok env assets targets router (List.range assets.length)
        ⟨assets.map env.balanceOf, 0, []⟩ (by dsimp only; omega)
    rw [houter] at heq
    obtain rfl : r = st' := by simpa using heq
    exact hcount
  · intro env assets alloc tv e h
    unfold forceRebalanceToAllocation at h
    split at h
    next e' hval =>
      obtain rfl : e' = e := by simpa using h
      exact .inl (validateAllocation_error hval)
    · split at h
      · exact .inl (by simpa using h.symm)
      next router hrouter =>
        split at h
        · exact .inr (by simpa using h.symm)
        next targets htargets =>
          obtain ⟨st', heq, _, _⟩ :=
            @forceOuter_ok env assets targets router (List.range assets.length)
              ⟨assets.map env.balanceOf, 0, []⟩ (by dsimp only; omega)
          rw [heq] at h
          exact absurd h (by simp)
  · intro e
    rfl

/-- Witness for C9: a run in which the only candidate leg's router swap
fails leaves the counter at 0 and still succeeds; an invalid allocation
yields `InvalidConfiguration`; and the unconstrained executor surfaces
the router's error verbatim. -/
theorem spec_C9_witness :
    (⟨[0, 10000], 0, []⟩ : ForceState).swapCount ≤ 3 ∧
    (VaultError.InvalidConfiguration = VaultError.InvalidConfiguration ∨
     VaultError.InvalidConfiguration = VaultError.InvalidAmount) ∧
    executeRebalanceAction (failingRouterEnv .SlippageTooHigh) [0, 1] [1000000, 0] 10000
      = .error .SlippageTooHigh :=
  ⟨spec_C9.1 (failingRouterEnv .SlippageTooHigh) [0, 1] [1000000, 0] 10000
     ⟨[0, 10000], 0, []⟩ (by decide),
   spec_C9.2.1 (failingRouterEnv .SlippageTooHigh) [0, 1] [400000, 0] 10000
     .InvalidConfiguration (by decide),
   spec_C9.2.2 .SlippageTooHigh⟩

/-- Every router call appended by the unconstrained inner scan carries a
minimum output equal to 95% of the quoted expected output. -/
theorem execInner_calls {env : ExecEnv} {assets : List Address} {targets : List Int}
    {router : Address} {i : Nat} {asset : Address} {current diff : Int} :
    ∀ (js : List Nat) (st st' : ExecState),
      execInner env assets targets router i asset current diff js st = .ok st' →
      ∀ c ∈ st'.calls, c ∈ st.calls ∨
        ∃ pool expected,
          env.calcSwapOutput pool c.source c.dest c.amountIn = .ok expected ∧
          c.minOut = Int.tdiv (expected * 95) 100 := by
  intro js
  induction js with
  | nil =>
    intro st st' h c hc
    obtain rfl : st = st' := by simpa [execInner] using h
    exact .inl hc
  | cons j rest ih =>
    intro st st' h c hc
    simp only [execInner] at h
    split at h
    · exact ih st st' h c hc
    · split at h
      · split at h
        · split at h
          · exact absurd h (by simp)
          next pool hpool =>
            split at h
            · exact absurd h (by simp)
            next amt0 hamt0 =>
              split at h
              · split at h
                · exact ih st st' h c hc
                · split at h
                  · exact absurd h (by simp)
                  next expected hexp =>
                    split at h
                    · exact absurd h (by simp)
                    · split at h
                      · exact absurd h (by simp)
                      next amount_out hswap =>
                        cases h
                        rcases List.mem_append.mp hc with hmem | hone
                        · exact .inl hmem
                        · obtain rfl := List.mem_singleton.mp hone
                          exact .inr ⟨pool, expected, hexp, rfl⟩
              · split at h
                · exact ih st st' h c hc
                · split at h
                  · exact absurd h (by simp)
                  next expected hexp =>
                    split at h
                    · exact absurd h (by simp)
                    · split at h
                      · exact absurd h (by simp)
                      next amount_out hswap =>
                        cases h
                        rcases List.mem_append.mp hc with hmem | hone
                        · exact .inl hmem
                        · obtain rfl := List.mem_singleton.mp hone
                          exact .inr ⟨pool, expected, hexp, rfl⟩
        · exact ih st st' h c hc
      · exact ih st st' h c hc

/-- Call-trace invariant for the unconstrained outer loop. -/
theorem execOuter_calls {env : ExecEnv} {assets : List Address} {targets : List Int}
    {router : Address} :
    ∀ (is : List Nat) (st st' : ExecState),
      execOuter env assets targets router is st = .ok st' →
      ∀ c ∈ st'.calls, c ∈ st.calls ∨
        ∃ pool expected,
          env.calcSwapOutput pool c.source c.dest c.amountIn = .ok expected ∧
          c.minOut = Int.tdiv (expected * 95) 100 := by
  intro is
  induction is with
  | nil =>
    intro st st' h c hc
    obtain rfl : st = st' := by simpa [execOuter] using h
    exact .inl hc
  | cons i rest ih =>
    intro st st' h c hc
    simp only [execOuter] at h
    split at h
    · split at h
      · exact ih st st' h c hc
      · split at h
        · split at h
          · exact absurd h (by simp)
          next st1 hinner =>
            rcases ih st1 st' h c hc with hmem | hP
            · exact execInner_calls _ st st1 hinner c hmem
            · exact .inr hP
        · exact ih st st' h c hc
    · exact ih st st' h c hc

/-- C8 (amended): the steps recorded by `calculate_rebalance_plan` and
the swaps executed by `force_rebalance_to_allocation` carry
`min_amount_out = floor(amount_in * 95 / 100)` — 95% of the *input*
amount (a 1:1 price estimate that never reads pool reserves); only the
unconstrained `execute_rebalance_action` derives its minimum as
`floor(expected_output * 95 / 100)` from the quoted AMM expected
output. -/
theorem spec_C8 :
    (∀ (env : PlanEnv) (assets : List Address) (alloc : List Int) (tv : Int)
       (plan : RebalancePlan),
       calculateRebalancePlan env assets alloc tv = .ok plan →
       ∀ st ∈ plan.steps, st.min_amount_out = Int.tdiv (st.amount_in * 95) 100) ∧
    (∀ (env : ExecEnv) (assets : List Address) (alloc : List Int) (tv : Int)
       (r : ForceState),
       forceRebalanceToAllocation env assets alloc tv = .ok r →
       ∀ c ∈ r.calls, c.minOut = Int.tdiv (c.amountIn * 95) 100) ∧
    (∀ (env : ExecEnv) (assets : List Address) (alloc : List Int) (tv : Int)
       (r : ExecState),
       executeRebalanceAction env assets alloc tv = .ok r →
       ∀ c ∈ r.calls, ∃ pool expected,
         env.calcSwapOutput pool c.source c.dest c.amountIn = .ok expected ∧
         c.minOut = Int.tdiv (expected * 95) 100) := by
  refine ⟨?_, ?_, ?_⟩
  · intro env assets alloc tv plan h st hst
    unfold calculateRebalancePlan at h
    split at h
    · exact absurd h (by simp)
    · split at h
      · exact absurd h (by simp)
      next targets htargets =>
        obtain rfl : (⟨planOuter env assets targets (List.range assets.length)
            (assets.map env.balanceOf) [],
            (planOuter env assets targets (List.range assets.length)
            (assets.map env.balanceOf) []).length⟩ : RebalancePlan) = plan := by
          simpa using h
        exact planOuter_inv (List.range assets.length) (assets.map env.balanceOf) []
          (by intro s hs; exact absurd hs (List.not_mem_nil s)) st hst
  · intro env assets alloc tv r h c hc
    obtain ⟨router, targets, _, _, houter⟩ := forceRebalance_ok h
    obtain ⟨st', heq, _, hcalls⟩ :=
      @forceOuter_ok env assets targets router (List.range assets.length)
        ⟨assets.map env.balanceOf, 0, []⟩ (by dsimp only; omega)
    rw [houter] at heq
    obtain rfl : r = st' := by simpa using heq
    rcases hcalls c hc with hmem | hmin
    · exact absurd hmem (List.not_mem_nil c)
    · exact hmin
  · intro env assets alloc tv r h c hc
    unfold executeRebalanceAction at h
    split at h
    · exact absurd h (by simp)
    · split at h
      · exact absurd h (by simp)
      next router hrouter =>
        split at h
        · exact absurd h (by simp)
        next targets htargets =>
          rcases execOuter_calls (List.range assets.length)
              ⟨assets.map env.balanceOf, []⟩ r h c hc with hmem | hP
          · exact absurd hmem (List.not_mem_nil c)
          · exact hP

/-- Witness for C8 at the C8 analysis scenario: the planned step's
minimum is 95% of its input. -/
theorem spec_C8_witness : (9500 : Int) = Int.tdiv (10000 * 95) 100 :=
  spec_C8.1 planScenarioEnv [0, 1] [1000000, 0] 10000
    ⟨[⟨1, 0, 10000, 9500, 99⟩], 1⟩ (by decide) ⟨1, 0, 10000, 9500, 99⟩
    (List.mem_singleton.mpr rfl)

/-! ## Claim theorems: the liquidity action's frame -/

/-- C10: a successful liquidity action transfers no tokens and calls no
external pool; its only effect (besides the event) is storing a
`LiquidityPosition` whose two provided amounts both equal
`floor(total_value * threshold / 1,000,000) / 2` and whose `lp_tokens`
is their sum. -/
theorem spec_C10 :
    ∀ (balanceOf : Address → Int) (threshold tv : Int) (assets : List Address)
      (pool : Option Address) (now : Nat) (eff : LiquidityEffects),
      0 ≤ tv → 0 ≤ threshold →
      executeLiquidityAction balanceOf threshold assets tv pool now = .ok eff →
      eff.tokenTransfersOut = [] ∧ eff.poolCallsMade = [] ∧
      eff.position.amount_a_provided = tv * threshold / 1000000 / 2 ∧
      eff.position.amount_b_provided = tv * threshold / 1000000 / 2 ∧
      eff.position.lp_tokens =
        eff.position.amount_a_provided + eff.position.amount_b_provided := by
  intro balanceOf threshold tv assets pool now eff htv hth h
  unfold executeLiquidityAction at h
  split at h
  · exact absurd h (by simp)
  · split at h
    · exact absurd h (by simp)
    next la hla =>
      split at h
      · exact absurd h (by simp)
      next hle =>
        split at h
        · exact absurd h (by simp)
        next pool_address =>
          split at h
          next token_a token_b hg1 hg2 =>
            dsimp only at h
            split at h
            · exact absurd h (by simp)
            next hbal =>
              cases h
              simp only [Option.bind_eq_some] at hla
              obtain ⟨w, hw, hd⟩ := hla
              have e1 := checkedMul_some hw
              obtain ⟨hne, hq⟩ := checkedDiv_some hd
              subst e1
              have hla_eq : la = tv * threshold / 1000000 := by
                rw [hq, Int.tdiv_eq_ediv (mul_nonneg htv hth) (by norm_num)]
              have hla_nonneg : 0 ≤ la := by
                rw [hla_eq]
                exact Int.ediv_nonneg (mul_nonneg htv hth) (by norm_num)
              refine ⟨rfl, rfl, ?_, ?_, rfl⟩ <;> dsimp only <;>
                rw [Int.tdiv_eq_ediv hla_nonneg (by norm_num), hla_eq]
          next => exact absurd h (by simp)

/-- Witness for C10: with `total_value = 1,000,000` and a 50% threshold
the stored position provides 250,000 of each asset and records 500,000
LP tokens with no transfers and no pool calls. -/
theorem spec_C10_witness :
    ((⟨⟨5, 0, 1, 500000, 250000, 250000, 0⟩, 500000, [], []⟩ :
        LiquidityEffects)).tokenTransfersOut = [] ∧
    ((⟨⟨5, 0, 1, 500000, 250000, 250000, 0⟩, 500000, [], []⟩ :
        LiquidityEffects)).poolCallsMade = [] ∧
    (250000 : Int) = 1000000 * 500000 / 1000000 / 2 ∧
    (250000 : Int) = 1000000 * 500000 / 1000000 / 2 ∧
    (500000 : Int) = 250000 + 250000 :=
  spec_C10 (fun _ => 1000000) 500000 1000000 [0, 1] (some 5) 0
    ⟨⟨5, 0, 1, 500000, 250000, 250000, 0⟩, 500000, [], []⟩
    (by decide) (by decide) (by decide)

end Syft
